import Mathlib

set_option autoImplicit false

namespace Hubble

/-! Shallow embedding of the Hubble state engine pieces exercised by the
LinkStore tests, the engine revocation pipeline and the message builder.
Byte strings are `List Nat` (each entry one byte), machine integers are `Nat`. -/

/-- Lexicographic byte comparison, translated from the bytesCompare helper of
the farcaster utils package as the stores use it: compare pairwise, a buffer
that is a proper prefix of the other is the smaller one. -/
def bytesCompare : List Nat → List Nat → Int
  | [], [] => 0
  | [], _ :: _ => -1
  | _ :: _, [] => 1
  | a :: as, b :: bs =>
    if a < b then -1 else if b < a then 1 else bytesCompare as bs

/-- Big endian four byte encoding of a 32 bit Farcaster timestamp, the first
four bytes of every TsHash. -/
def beBytes4 (n : Nat) : List Nat :=
  [n / 2 ^ 24 % 256, n / 2 ^ 16 % 256, n / 2 ^ 8 % 256, n % 256]

/-- TsHash layout from makeTsHash: 4 big endian timestamp bytes followed by
the message hash bytes. -/
def makeTsHash (timestamp : Nat) (hash : List Nat) : List Nat :=
  beBytes4 timestamp ++ hash

/-- Association list lookup (the byte keyed KV map restricted to one index). -/
def alookup {K V : Type} [DecidableEq K] (k : K) : List (K × V) → Option V
  | [] => none
  | (k2, v) :: rest => if k2 = k then some v else alookup k rest

/-- Deleting a key from the KV map: drop every entry stored at that key. -/
def aerase {K V : Type} [DecidableEq K] (k : K) (l : List (K × V)) : List (K × V) :=
  l.filter (fun e => decide (e.1 ≠ k))

/-- Error classification, from the HubErrorCode union in hubErrors.ts plus
the store specific codes pinned by the LinkStore tests. -/
inductive HubErrorCode
  | badRequestDuplicate
  | badRequestConflict
  | badRequestPrunable
  | badRequestInvalidParam
  | badRequestValidationFailure
  | notFound
deriving DecidableEq, Repr

/-- Typed error carrying the classification and the human readable text, from
the HubError class in hubErrors.ts. -/
structure HubError where
  errCode : HubErrorCode
  message : String
deriving DecidableEq, Repr

end Hubble

deriving instance DecidableEq for Except

namespace Hubble.LinkStore

/-! Modelled from the spec: the LinkStore implementation is not part of this
repository (only its test suite is, in the LinkStore test file).  The state,
the merge algorithm, revoke and prune below follow the TypedStore contract of
spec section 4.3 together with the padding bug handling of section 9, with the
conflict resolution order and the error codes and texts pinned by the
LinkStore tests.  Event ids are the monotonic ids the store event handler
commits return. -/

/-- Message type tag: LINK_ADD or LINK_REMOVE. -/
inductive LinkKind
  | add
  | remove
deriving DecidableEq, Repr

/-- Link body: the link type string (ASCII bytes, at most 8) and the target
fid, the body key of the link CRDT. -/
structure LinkBody where
  type : List Nat
  targetFid : Nat
deriving DecidableEq, Repr

/-- Message data for a link message. -/
structure LinkData where
  fid : Nat
  type : LinkKind
  timestamp : Nat
  linkBody : LinkBody
deriving DecidableEq, Repr

/-- A link message: data plus the message hash bytes. -/
structure LinkMessage where
  data : LinkData
  hash : List Nat
deriving DecidableEq, Repr

/-- Composite primary sort key of a message. -/
def LinkMessage.tsHash (m : LinkMessage) : List Nat :=
  makeTsHash m.data.timestamp m.hash

/-- Secondary index key for the link add and link remove indices: fid, the
stored link type bytes and the target fid.  Canonical entries store the type
right zero padded to the declared width 8; legacy entries store the raw
variable width bytes (the padding bug of spec section 9). -/
structure LinkBodyKey where
  fid : Nat
  typeBytes : List Nat
  targetFid : Nat
deriving DecidableEq, Repr

/-- Fixed width link type: right zero padded or truncated to 8 bytes. -/
def padLinkType (t : List Nat) : List Nat :=
  (t ++ List.replicate 8 0).take 8

/-- Canonical (fixed width) index key. -/
def makeLinksKey (fid : Nat) (t : List Nat) (target : Nat) : LinkBodyKey :=
  ⟨fid, padLinkType t, target⟩

/-- Legacy (variable width) index key written by old releases. -/
def legacyLinksKey (fid : Nat) (t : List Nat) (target : Nat) : LinkBodyKey :=
  ⟨fid, t, target⟩

/-- Events committed by the store event handler, each carrying its monotonic
event id. -/
inductive HubEvent
  | mergeMessage (id : Nat) (message : LinkMessage) (deleted : List LinkMessage)
  | pruneMessage (id : Nat) (message : LinkMessage)
  | revokeMessage (id : Nat) (message : LinkMessage)
deriving DecidableEq, Repr

/-- Store state: the primary rows keyed by (fid, tsHash), the two secondary
indices mapping body keys to tsHashes, the committed event log and the next
event id (event ids start at 1 and are strictly positive). -/
structure LinkStoreState where
  primary : List ((Nat × List Nat) × LinkMessage)
  linkAdds : List (LinkBodyKey × List Nat)
  linkRemoves : List (LinkBodyKey × List Nat)
  events : List HubEvent
  nextId : Nat
deriving DecidableEq, Repr

def emptyStore : LinkStoreState :=
  ⟨[], [], [], [], 1⟩

/-- Index lookup that accepts both the canonical padded key and the legacy
variable width key (readers must check both, spec section 9). -/
def lookupLinkIndex (idx : List (LinkBodyKey × List Nat)) (fid : Nat) (t : List Nat)
    (target : Nat) : Option (List Nat) :=
  match alookup (makeLinksKey fid t target) idx with
  | some ts => some ts
  | none => alookup (legacyLinksKey fid t target) idx

/-- Delete the index entries for one body key in both the canonical and the
legacy form (write paths migrate legacy entries away, spec section 9). -/
def deleteIndexEntries (idx : List (LinkBodyKey × List Nat)) (fid : Nat) (t : List Nat)
    (target : Nat) : List (LinkBodyKey × List Nat) :=
  aerase (makeLinksKey fid t target) (aerase (legacyLinksKey fid t target) idx)

/-- Transaction deleting one message: primary row plus its secondary index
entries (canonical and legacy form). -/
def deleteLinkTxn (s : LinkStoreState) (m : LinkMessage) : LinkStoreState :=
  { s with
    primary := aerase (m.data.fid, m.tsHash) s.primary
    linkAdds :=
      if m.data.type = .add then
        deleteIndexEntries s.linkAdds m.data.fid m.data.linkBody.type m.data.linkBody.targetFid
      else s.linkAdds
    linkRemoves :=
      if m.data.type = .remove then
        deleteIndexEntries s.linkRemoves m.data.fid m.data.linkBody.type m.data.linkBody.targetFid
      else s.linkRemoves }

/-- Transaction inserting one message: primary row plus the canonical
secondary index entry (new code never writes the legacy form). -/
def putLinkTxn (s : LinkStoreState) (m : LinkMessage) : LinkStoreState :=
  { s with
    primary := ((m.data.fid, m.tsHash), m) :: aerase (m.data.fid, m.tsHash) s.primary
    linkAdds :=
      if m.data.type = .add then
        (makeLinksKey m.data.fid m.data.linkBody.type m.data.linkBody.targetFid, m.tsHash) ::
          aerase (makeLinksKey m.data.fid m.data.linkBody.type m.data.linkBody.targetFid) s.linkAdds
      else s.linkAdds
    linkRemoves :=
      if m.data.type = .remove then
        (makeLinksKey m.data.fid m.data.linkBody.type m.data.linkBody.targetFid, m.tsHash) ::
          aerase (makeLinksKey m.data.fid m.data.linkBody.type m.data.linkBody.targetFid) s.linkRemoves
      else s.linkRemoves }

/-- Conflict resolution order of the store, translated from the generic store
messageCompare as the LinkStore tests pin it down: first the timestamp bytes
of the TsHash, then REMOVE beats ADD, then the remaining hash bytes. -/
def linkMessageCompare (aKind : LinkKind) (aTsHash : List Nat) (bKind : LinkKind)
    (bTsHash : List Nat) : Int :=
  let tsCompare := bytesCompare (aTsHash.take 4) (bTsHash.take 4)
  if tsCompare ≠ 0 then tsCompare
  else if aKind = .remove ∧ bKind = .add then 1
  else if aKind = .add ∧ bKind = .remove then -1
  else bytesCompare (aTsHash.drop 4) (bTsHash.drop 4)

/-- Conflict detection of the merge algorithm (spec section 4.3 steps 2, 4, 5
and 6): look up the body key in the remove index and in the add index (legacy
keys included), fail with duplicate or conflict when the stored message wins
or equals, otherwise collect the losing stored messages. -/
def getMergeConflicts (s : LinkStoreState) (m : LinkMessage) :
    Except HubError (List LinkMessage) := do
  let fid := m.data.fid
  let t := m.data.linkBody.type
  let target := m.data.linkBody.targetFid
  let removeConflicts ←
    match lookupLinkIndex s.linkRemoves fid t target with
    | none => pure []
    | some rTsHash =>
      let c := linkMessageCompare .remove rTsHash m.data.type m.tsHash
      if 0 < c then
        throw ⟨.badRequestConflict, "message conflicts with a more recent remove"⟩
      else if c = 0 then
        throw ⟨.badRequestDuplicate, "message has already been merged"⟩
      else
        match alookup (fid, rTsHash) s.primary with
        | none => throw ⟨.notFound, "message not found"⟩
        | some em => pure [em]
  let addConflicts ←
    match lookupLinkIndex s.linkAdds fid t target with
    | none => pure []
    | some aTsHash =>
      let c := linkMessageCompare .add aTsHash m.data.type m.tsHash
      if 0 < c then
        throw ⟨.badRequestConflict, "message conflicts with a more recent add"⟩
      else if c = 0 then
        throw ⟨.badRequestDuplicate, "message has already been merged"⟩
      else
        match alookup (fid, aTsHash) s.primary with
        | none => throw ⟨.notFound, "message not found"⟩
        | some em => pure [em]
  pure (removeConflicts ++ addConflicts)

/-- All primary row messages of one fid. -/
def linkMessagesOfFid (s : LinkStoreState) (fid : Nat) : List LinkMessage :=
  s.primary.filterMap (fun e => if e.1.1 = fid then some e.2 else none)

/-- Active message count of one fid (the storage cache counter). -/
def linkCount (s : LinkStoreState) (fid : Nat) : Nat :=
  (linkMessagesOfFid s fid).length

/-- Message of one fid with the smallest TsHash (the storage cache earliest
entry). -/
def earliestLinkMessage (s : LinkStoreState) (fid : Nat) : Option LinkMessage :=
  (linkMessagesOfFid s fid).foldl
    (fun acc m =>
      match acc with
      | none => some m
      | some u => if bytesCompare m.tsHash u.tsHash < 0 then some m else some u)
    none

/-- Prunable check of spec section 4.3: a merge is rejected when the store is
at or over its size limit and the incoming TsHash sorts before the current
earliest message. -/
def isPrunable (s : LinkStoreState) (m : LinkMessage) (limit : Nat) : Bool :=
  if linkCount s m.data.fid < limit then false
  else
    match earliestLinkMessage s m.data.fid with
    | none => false
    | some e => decide (bytesCompare m.tsHash e.tsHash < 0)

/-- Merge algorithm of spec section 4.3: prunable check, conflict detection,
atomic delete of the losers and insert of the winner, one MergeMessage event
carrying the displaced messages; returns the commit event id. -/
def merge (limit : Nat) (s : LinkStoreState) (m : LinkMessage) :
    Except HubError (Nat × LinkStoreState) := do
  if isPrunable s m limit then
    throw ⟨.badRequestPrunable, "message would be pruned"⟩
  let conflicts ← getMergeConflicts s m
  let s1 := conflicts.foldl deleteLinkTxn s
  let s2 := putLinkTxn s1 m
  let id := s2.nextId
  pure (id, { s2 with events := s2.events ++ [.mergeMessage id m conflicts], nextId := id + 1 })

/-- Read one LinkAdd by (fid, type, targetFid): resolve the body key through
the add index (legacy keys accepted) and fetch the primary row. -/
def getLinkAdd (s : LinkStoreState) (fid : Nat) (t : List Nat) (target : Nat) :
    Except HubError LinkMessage :=
  match lookupLinkIndex s.linkAdds fid t target with
  | none => throw ⟨.notFound, "message not found"⟩
  | some ts =>
    match alookup (fid, ts) s.primary with
    | none => throw ⟨.notFound, "message not found"⟩
    | some m => pure m

/-- Read one LinkRemove by (fid, type, targetFid). -/
def getLinkRemove (s : LinkStoreState) (fid : Nat) (t : List Nat) (target : Nat) :
    Except HubError LinkMessage :=
  match lookupLinkIndex s.linkRemoves fid t target with
  | none => throw ⟨.notFound, "message not found"⟩
  | some ts =>
    match alookup (fid, ts) s.primary with
    | none => throw ⟨.notFound, "message not found"⟩
    | some m => pure m

/-- Revoke of spec section 4.3: delete the primary row and every derived index
row of the message, emit a RevokeMessage event; idempotent on unmerged
messages, so it never fails on a link message. -/
def revoke (s : LinkStoreState) (m : LinkMessage) : Except HubError (Nat × LinkStoreState) :=
  let s1 := deleteLinkTxn s m
  let id := s1.nextId
  pure (id, { s1 with events := s1.events ++ [.revokeMessage id m], nextId := id + 1 })

/-- Prune loop: while the count of the fid exceeds the limit, delete the
earliest message by TsHash, emit one PruneMessage event and record its commit
event id.  The fuel is the starting count, enough for every iteration. -/
def pruneLoop : Nat → Nat → Nat → LinkStoreState → List Nat → List Nat × LinkStoreState
  | 0, _, _, s, acc => (acc.reverse, s)
  | fuel + 1, limit, fid, s, acc =>
    if linkCount s fid ≤ limit then (acc.reverse, s)
    else
      match earliestLinkMessage s fid with
      | none => (acc.reverse, s)
      | some m =>
        let s1 := deleteLinkTxn s m
        let id := s1.nextId
        let s2 := { s1 with events := s1.events ++ [.pruneMessage id m], nextId := id + 1 }
        pruneLoop fuel limit fid s2 (id :: acc)

/-- Quota prune of spec section 4.3: remove earliest by TsHash until within
the limit; returns one prune commit event id per removed message (the removed
messages travel in the PruneMessage events). -/
def pruneMessages (limit : Nat) (s : LinkStoreState) (fid : Nat) :
    List Nat × LinkStoreState :=
  pruneLoop (linkCount s fid) limit fid s []

/-- Messages carried by the PruneMessage events of an event list. -/
def prunedOf (evs : List HubEvent) : List LinkMessage :=
  evs.filterMap (fun e =>
    match e with
    | .pruneMessage _ m => some m
    | _ => none)

/-- Constructor shortcut for a link message. -/
def mkLink (fid : Nat) (k : LinkKind) (ts : Nat) (t : List Nat) (target : Nat)
    (h : List Nat) : LinkMessage :=
  ⟨⟨fid, k, ts, ⟨t, target⟩⟩, h⟩

/-- ASCII bytes of the link type string follow, 6 bytes, so shorter than the
declared fixed width 8 (the type the padding bug tests use). -/
def followBytes : List Nat :=
  [102, 111, 108, 108, 111, 119]

/-- Concrete LinkAdd number i of the quota prune scenario: fid 9, distinct
target fids, timestamps 100 + i. -/
def pruneAdd (i : Nat) : LinkMessage :=
  mkLink 9 .add (100 + i) followBytes (20 + i) [i]

/-- Well formed primary rows: the stored keys are pairwise distinct and every
row is keyed by the fid and TsHash of the message it holds. -/
def wfPrimary (s : LinkStoreState) : Prop :=
  (s.primary.map Prod.fst).Nodup ∧ ∀ e ∈ s.primary, e.1 = (e.2.data.fid, e.2.tsHash)

/-- A store of fid 9 at size limit 3: the three LinkAdd messages pruneAdd 1,
pruneAdd 2 and pruneAdd 3 with their canonical index entries (the state the
prune scenario reaches after merging them). -/
def fullStore3 : LinkStoreState :=
  { primary := [((9, (pruneAdd 3).tsHash), pruneAdd 3), ((9, (pruneAdd 2).tsHash), pruneAdd 2),
      ((9, (pruneAdd 1).tsHash), pruneAdd 1)]
    linkAdds := [(makeLinksKey 9 followBytes 23, (pruneAdd 3).tsHash),
      (makeLinksKey 9 followBytes 22, (pruneAdd 2).tsHash),
      (makeLinksKey 9 followBytes 21, (pruneAdd 1).tsHash)]
    linkRemoves := []
    events := []
    nextId := 4 }

/-- Store holding one message written the way legacy releases wrote it: the
primary row plus a secondary index entry under the variable width (unpadded)
body key, after the insertWithIncorrectPadding helper of the padding bug
tests. -/
def storeWithIncorrectPadding (m : LinkMessage) : LinkStoreState :=
  { primary := [((m.data.fid, m.tsHash), m)]
    linkAdds :=
      if m.data.type = .add then
        [(legacyLinksKey m.data.fid m.data.linkBody.type m.data.linkBody.targetFid, m.tsHash)]
      else []
    linkRemoves :=
      if m.data.type = .remove then
        [(legacyLinksKey m.data.fid m.data.linkBody.type m.data.linkBody.targetFid, m.tsHash)]
      else []
    events := []
    nextId := 1 }

end Hubble.LinkStore

namespace Hubble.Engine

/-! Embedding of the engine facade revocation pipeline, translated from the
Engine source file (mergeMessage validation steps 3 and 4, mergeIdRegistryEvent,
handleMergeIdRegistryEvent, handleMergeMessageEvent, handleRevokeMessageEvent
and revokeMessagesBySigner).  The typed stores the engine drives (SignerStore,
CastStore) and the revoke job worker are not part of this repository; they are
modelled from the spec: the signer store is the LWW set of section 4.3 keyed by
the delegate public key, the cast store a plain add set, and the durable
RevokeMessagesBySigner job queue a fifo processed after commits.  The parts of
validateMessage not relevant here (network tag, fname ownership, body and
envelope checks) and the UserData fname revocation are elided. -/

/-- Message families routed by the engine in the scenarios below. -/
inductive MessageKind
  | signerAdd
  | signerRemove
  | castAdd
deriving DecidableEq, Repr

/-- An engine level message: for signer messages the signer field is the
custody eth address that Eip712 signed it and the body the delegate ed25519
public key; for casts the signer field is the delegate ed25519 key. -/
structure EngineMessage where
  fid : Nat
  kind : MessageKind
  signer : List Nat
  body : List Nat
  timestamp : Nat
  hash : List Nat
deriving DecidableEq, Repr

/-- An IdRegistry on chain event: Register has an empty fromAddress, Transfer
carries the outgoing custody address in fromAddress. -/
structure IdRegistryEvent where
  fid : Nat
  toAddress : List Nat
  fromAddress : List Nat
deriving DecidableEq, Repr

/-- Engine state: custody address per fid, the signer add LWW set keyed by
(fid, delegate key), the cast add set, the pending RevokeMessagesBySigner
job queue and the log of revoked messages (the RevokeMessage events). -/
@[ext]
structure EngineState where
  custody : List (Nat × List Nat)
  signerAdds : List ((Nat × List Nat) × EngineMessage)
  casts : List EngineMessage
  revokeQueue : List (Nat × List Nat)
  revoked : List EngineMessage
deriving DecidableEq, Repr

def emptyEngine : EngineState :=
  ⟨[], [], [], [], []⟩

/-- Validation steps 3 and 4 of the engine validateMessage: the fid must have
a custody address; signer family messages must be signed by the current
custody address, every other family by a delegate with a stored SignerAdd. -/
def validateMessage (s : EngineState) (m : EngineMessage) : Except HubError Unit :=
  match alookup m.fid s.custody with
  | none => throw ⟨.badRequestValidationFailure, "unknown fid"⟩
  | some custodyAddr =>
    if m.kind = .signerAdd ∨ m.kind = .signerRemove then
      if m.signer = custodyAddr then pure ()
      else throw ⟨.badRequestValidationFailure, "invalid signer"⟩
    else
      match alookup (m.fid, m.signer) s.signerAdds with
      | some _ => pure ()
      | none => throw ⟨.badRequestValidationFailure, "invalid signer"⟩

/-- LWW order of the signer store (spec section 4.3): timestamp, then REMOVE
over ADD, then hash bytes. -/
def signerMessageCompare (a b : EngineMessage) : Int :=
  if a.timestamp < b.timestamp then -1
  else if b.timestamp < a.timestamp then 1
  else if a.kind = .signerRemove ∧ b.kind = .signerAdd then 1
  else if a.kind = .signerAdd ∧ b.kind = .signerRemove then -1
  else bytesCompare a.hash b.hash

/-- Signer store merge of a SignerAdd, modelled from the spec LWW contract:
conflicts share the (fid, delegate key) body key; the displaced loser is
deleted as part of the MergeMessage commit (it is not revoked, so no
revocation job is enqueued for it). -/
def mergeSignerAdd (s : EngineState) (m : EngineMessage) : Except HubError EngineState :=
  match alookup (m.fid, m.body) s.signerAdds with
  | none => pure { s with signerAdds := ((m.fid, m.body), m) :: s.signerAdds }
  | some existing =>
    let c := signerMessageCompare existing m
    if 0 < c then throw ⟨.badRequestConflict, "message conflicts with a more recent add"⟩
    else if c = 0 then throw ⟨.badRequestDuplicate, "message has already been merged"⟩
    else pure { s with signerAdds := ((m.fid, m.body), m) :: aerase (m.fid, m.body) s.signerAdds }

/-- Merging a SignerRemove deletes the SignerAdd at the body key and, through
handleMergeMessageEvent, enqueues a RevokeMessagesBySigner job for the removed
delegate key (remove message retention is not modelled, the claims do not need
it). -/
def mergeSignerRemove (s : EngineState) (m : EngineMessage) : Except HubError EngineState :=
  pure { s with
    signerAdds := aerase (m.fid, m.body) s.signerAdds
    revokeQueue := s.revokeQueue ++ [(m.fid, m.body)] }

/-- Cast store merge (cast adds have no body key conflicts in the scenarios
below, so the conflict branch is not modelled). -/
def mergeCastAdd (s : EngineState) (m : EngineMessage) : Except HubError EngineState :=
  pure { s with casts := m :: s.casts }

/-- Engine mergeMessage: validate, then route to the store of the message
family. -/
def mergeMessage (s : EngineState) (m : EngineMessage) : Except HubError EngineState := do
  validateMessage s m
  match m.kind with
  | .signerAdd => mergeSignerAdd s m
  | .signerRemove => mergeSignerRemove s m
  | .castAdd => mergeCastAdd s m

/-- Signer store side of mergeIdRegistryEvent: the latest IdRegister event
determines the custody address of the fid. -/
def mergeIdRegistryEventStore (s : EngineState) (e : IdRegistryEvent) : EngineState :=
  { s with custody := (e.fid, e.toAddress) :: aerase e.fid s.custody }

/-- handleMergeIdRegistryEvent from the Engine source: when the accepted event
carries a non empty outgoing address, enqueue a RevokeMessagesBySigner job for
it (the UserData fname revocation branch is not modelled here). -/
def handleMergeIdRegistryEvent (s : EngineState) (e : IdRegistryEvent) : EngineState :=
  if e.fromAddress ≠ [] then
    { s with revokeQueue := s.revokeQueue ++ [(e.fid, e.fromAddress)] }
  else s

/-- Engine mergeIdRegistryEvent: commit the custody change, then run the
merge event handler. -/
def mergeIdRegistryEvent (s : EngineState) (e : IdRegistryEvent) : EngineState :=
  handleMergeIdRegistryEvent (mergeIdRegistryEventStore s e) e

/-- Store revoke of one message plus handleRevokeMessageEvent from the Engine
source: the message leaves its store and is logged as revoked; revoking a
SignerAdd enqueues a RevokeMessagesBySigner job for its delegate key. -/
def revokeEngineMessage (s : EngineState) (m : EngineMessage) : EngineState :=
  let s1 :=
    match m.kind with
    | .signerAdd => { s with signerAdds := aerase (m.fid, m.body) s.signerAdds }
    | .signerRemove => s
    | .castAdd => { s with casts := s.casts.filter (fun c => decide (c ≠ m)) }
  let s2 := { s1 with revoked := s1.revoked ++ [m] }
  if m.kind = .signerAdd then { s2 with revokeQueue := s2.revokeQueue ++ [(m.fid, m.body)] }
  else s2

/-- All stored messages of the fid whose signer field is the given key (the
by signer index iterator of revokeMessagesBySigner). -/
def messagesBySigner (s : EngineState) (fid : Nat) (signer : List Nat) : List EngineMessage :=
  s.signerAdds.filterMap (fun e => if e.2.fid = fid ∧ e.2.signer = signer then some e.2 else none)
    ++ s.casts.filter (fun c => decide (c.fid = fid ∧ c.signer = signer))

/-- revokeMessagesBySigner from the Engine source: iterate the by signer index
and invoke the owning store revoke on each message. -/
def revokeMessagesBySigner (s : EngineState) (fid : Nat) (signer : List Nat) : EngineState :=
  (messagesBySigner s fid signer).foldl revokeEngineMessage s

/-- Revoke job worker: process the queued RevokeMessagesBySigner jobs in
order; the fuel bounds the number of processed jobs. -/
def runRevokeJobs : Nat → EngineState → EngineState
  | 0, s => s
  | fuel + 1, s =>
    match s.revokeQueue with
    | [] => s
    | (fid, signer) :: rest =>
      runRevokeJobs fuel (revokeMessagesBySigner { s with revokeQueue := rest } fid signer)

/-- Queryable casts of one fid. -/
def getCastsByFid (s : EngineState) (fid : Nat) : List EngineMessage :=
  s.casts.filter (fun c => decide (c.fid = fid))

/-- Concrete custody transfer scenario, after the engine revoke tests: fid 1,
custody addresses A then B, one delegate signer key S. -/
def custodyA : List Nat := [10]

def custodyB : List Nat := [11]

def delegateS : List Nat := [20]

/-- SignerAdd of delegate S issued (Eip712 signed) by custody A. -/
def signerAddByA : EngineMessage :=
  ⟨1, .signerAdd, custodyA, delegateS, 1, [1]⟩

/-- SignerAdd of the same delegate S issued by the new custody B, with a later
timestamp. -/
def signerAddByB : EngineMessage :=
  ⟨1, .signerAdd, custodyB, delegateS, 3, [3]⟩

/-- A cast Ed25519 signed by delegate S. -/
def castByS : EngineMessage :=
  ⟨1, .castAdd, delegateS, [0], 2, [2]⟩

/-- IdRegister Register event assigning custody A to fid 1. -/
def registerA : IdRegistryEvent :=
  ⟨1, custodyA, []⟩

/-- IdRegister Transfer event moving custody of fid 1 from A to B. -/
def transferAToB : IdRegistryEvent :=
  ⟨1, custodyB, custodyA⟩

/-- Engine state right before the transfer in the scenario where the delegate
is not re-added: custody A, the SignerAdd issued under A and one cast by S. -/
def engineReadyState : EngineState :=
  { custody := [(1, custodyA)], signerAdds := [((1, delegateS), signerAddByA)],
    casts := [castByS], revokeQueue := [], revoked := [] }

end Hubble.Engine

namespace Hubble.Builder

/-! Embedding of the message builder hashing contract.  The builder itself is
not part of this repository (only its test file is); the digest length and the
hash scheme are pinned by that test. -/

/-- Modelled from the spec: blake3 is an external cryptographic primitive
consumed as a pure function.  Only its interface matters here: a keyed
digest whose output is exactly dkLen bytes; the compression itself is an
arbitrary fixed executable function. -/
def blake3 (dkLen : Nat) (data : List Nat) : List Nat :=
  (List.range dkLen).map (fun i => data.foldl (fun a b => (a * 31 + b + 7) % 256) (i % 256))

/-- Hash scheme tag of a message. -/
inductive HashScheme
  | blake3Tag
deriving DecidableEq, Repr

/-- A built message: the serialized data bytes, the hash and the scheme. -/
structure BuiltMessage where
  dataBytes : List Nat
  hash : List Nat
  hashScheme : HashScheme
deriving DecidableEq, Repr

/-- Modelled from the spec and the message builder test: the builder hashes
the serialized message data bytes with blake3 at dkLen 16 and records hash
scheme Blake3. -/
def makeMessage (dataBytes : List Nat) : BuiltMessage :=
  ⟨dataBytes, blake3 16 dataBytes, .blake3Tag⟩

end Hubble.Builder

namespace Hubble.Limits

/-! Modelled from the spec: getDefaultStoreLimit lives in the hub ts package,
not in this repository; per spec section 4.3 the per store defaults may change
on a configured calendar date, and the LinkStore test pins the Links store
values: 2500 at the time the tests run, 2000 once the current date reaches
2024-08-22. -/

/-- Store types with a pinned default limit. -/
inductive StoreType
  | links
deriving DecidableEq, Repr

/-- Milliseconds since the unix epoch of 2024-08-22T00:00:00Z, the calendar
cutover of the Links store default. -/
def linksCutoverMs : Nat := 1724284800000

/-- Default per store size limit as a function of the current time in unix
milliseconds. -/
def getDefaultStoreLimit (t : StoreType) (nowMs : Nat) : Nat :=
  match t with
  | .links => if nowMs < linksCutoverMs then 2500 else 2000

end Hubble.Limits

namespace Hubble

/-! Helper lemmas about the byte utilities and the association list map. -/

theorem bytesCompare_self (l : List Nat) : bytesCompare l l = 0 := by
  induction l with
  | nil => rfl
  | cons a as ih => simp [bytesCompare, ih]

theorem bytesCompare_neg (a b : List Nat) : bytesCompare b a = -bytesCompare a b := by
  induction a generalizing b with
  | nil => cases b <;> simp [bytesCompare]
  | cons x xs ih =>
    cases b with
    | nil => simp [bytesCompare]
    | cons y ys =>
      by_cases h1 : x < y
      · have h2 : ¬y < x := by omega
        simp [bytesCompare, h1, h2]
      · by_cases h2 : y < x
        · simp [bytesCompare, h1, h2]
        · simp [bytesCompare, h1, h2, ih]

theorem bytesCompare_trans_le (a b c : List Nat) (hab : bytesCompare a b ≤ 0)
    (hbc : bytesCompare b c ≤ 0) : bytesCompare a c ≤ 0 := by
  induction a generalizing b c with
  | nil => cases c <;> simp [bytesCompare]
  | cons x xs ih =>
    cases b with
    | nil => simp [bytesCompare] at hab
    | cons y ys =>
      cases c with
      | nil => simp [bytesCompare] at hbc
      | cons z zs =>
        by_cases hxy : x < y
        · by_cases hyz : y < z
          · have : x < z := by omega
            simp [bytesCompare, this]
          · by_cases hzy : z < y
            · simp [bytesCompare, hyz, hzy] at hbc
            · have hyz2 : y = z := by omega
              have : x < z := by omega
              simp [bytesCompare, this]
        · by_cases hyx : y < x
          · simp [bytesCompare, hxy, hyx] at hab
          · have hxy2 : x = y := by omega
            by_cases hyz : y < z
            · have : x < z := by omega
              simp [bytesCompare, this]
            · by_cases hzy : z < y
              · simp [bytesCompare, hyz, hzy] at hbc
              · have : ¬x < z := by omega
                have h2 : ¬z < x := by omega
                simp [bytesCompare, hxy, hyx] at hab
                simp [bytesCompare, hyz, hzy] at hbc
                simp [bytesCompare, this, h2]
                exact ih ys zs hab hbc

theorem bytesCompare_beBytes4 (t1 t2 : Nat) (h1 : t1 < 2 ^ 32) (h2 : t2 < 2 ^ 32) :
    bytesCompare (beBytes4 t1) (beBytes4 t2) =
      if t1 < t2 then -1 else if t2 < t1 then 1 else 0 := by
  simp only [beBytes4, bytesCompare]
  split_ifs <;> omega

theorem alookup_aerase_self {K V : Type} [DecidableEq K] (k : K) (l : List (K × V)) :
    alookup k (aerase k l) = none := by
  induction l with
  | nil => rfl
  | cons e rest ih =>
    by_cases h : e.1 = k
    · simpa [aerase, h] using ih
    · simpa [aerase, alookup, h] using ih

theorem alookup_aerase_ne {K V : Type} [DecidableEq K] (k k2 : K) (l : List (K × V))
    (h : k ≠ k2) : alookup k (aerase k2 l) = alookup k l := by
  induction l with
  | nil => rfl
  | cons e rest ih =>
    obtain ⟨k1, v1⟩ := e
    by_cases he : k1 = k2
    · have hek : k1 ≠ k := fun hk => h (hk ▸ he)
      have h1 : aerase k2 ((k1, v1) :: rest) = aerase k2 rest := by
        simp [aerase, List.filter, he]
      rw [h1, ih, alookup, if_neg hek]
    · have h2 : aerase k2 ((k1, v1) :: rest) = (k1, v1) :: aerase k2 rest := by
        simp [aerase, List.filter, he]
      rw [h2, alookup, alookup, ih]

theorem alookup_cons_self {K V : Type} [DecidableEq K] (k : K) (v : V) (l : List (K × V)) :
    alookup k ((k, v) :: l) = some v := by
  simp [alookup]

theorem aerase_nil {K V : Type} [DecidableEq K] (k : K) :
    aerase k ([] : List (K × V)) = [] := rfl

theorem aerase_cons_self {K V : Type} [DecidableEq K] (k : K) (v : V) (l : List (K × V)) :
    aerase k ((k, v) :: l) = aerase k l := by
  simp [aerase]

end Hubble

namespace Hubble.LinkStore

/-! Lemmas about the link conflict order and the index bookkeeping. -/

theorem take4_makeTsHash (ts : Nat) (h : List Nat) : (makeTsHash ts h).take 4 = beBytes4 ts := rfl

theorem drop4_makeTsHash (ts : Nat) (h : List Nat) : (makeTsHash ts h).drop 4 = h := rfl

theorem linkMessageCompare_self (k : LinkKind) (x : List Nat) :
    linkMessageCompare k x k x = 0 := by
  cases k <;> simp [linkMessageCompare, bytesCompare_self]

/-- At identical timestamps a remove always beats an add, whatever the two
hashes are. -/
theorem linkMessageCompare_remove_add (ts : Nat) (h1 h2 : List Nat) :
    linkMessageCompare .remove (makeTsHash ts h1) .add (makeTsHash ts h2) = 1 := by
  simp [linkMessageCompare, take4_makeTsHash, bytesCompare_self]

theorem linkMessageCompare_add_remove (ts : Nat) (h1 h2 : List Nat) :
    linkMessageCompare .add (makeTsHash ts h1) .remove (makeTsHash ts h2) = -1 := by
  simp [linkMessageCompare, take4_makeTsHash, bytesCompare_self]

/-- A strictly smaller timestamp loses regardless of the message kinds and
hashes. -/
theorem linkMessageCompare_ts_lt (k1 k2 : LinkKind) (ts1 ts2 : Nat) (h1 h2 : List Nat)
    (hb1 : ts1 < 2 ^ 32) (hb2 : ts2 < 2 ^ 32) (hlt : ts1 < ts2) :
    linkMessageCompare k1 (makeTsHash ts1 h1) k2 (makeTsHash ts2 h2) = -1 := by
  have hc : bytesCompare (beBytes4 ts1) (beBytes4 ts2) = -1 := by
    rw [bytesCompare_beBytes4 ts1 ts2 hb1 hb2, if_pos hlt]
  simp [linkMessageCompare, take4_makeTsHash, hc]

theorem linkMessageCompare_ts_gt (k1 k2 : LinkKind) (ts1 ts2 : Nat) (h1 h2 : List Nat)
    (hb1 : ts1 < 2 ^ 32) (hb2 : ts2 < 2 ^ 32) (hlt : ts2 < ts1) :
    linkMessageCompare k1 (makeTsHash ts1 h1) k2 (makeTsHash ts2 h2) = 1 := by
  have hc : bytesCompare (beBytes4 ts1) (beBytes4 ts2) = 1 := by
    rw [bytesCompare_beBytes4 ts1 ts2 hb1 hb2, if_neg (by omega), if_pos hlt]
  simp [linkMessageCompare, take4_makeTsHash, hc]

/-- After deleting the index entries of a body key, neither the canonical nor
the legacy lookup finds anything for it. -/
theorem lookup_deleteIndexEntries_self (idx : List (LinkBodyKey × List Nat)) (fid : Nat)
    (t : List Nat) (target : Nat) :
    lookupLinkIndex (deleteIndexEntries idx fid t target) fid t target = none := by
  unfold lookupLinkIndex deleteIndexEntries
  rw [alookup_aerase_self]
  by_cases h : legacyLinksKey fid t target = makeLinksKey fid t target
  · rw [h, alookup_aerase_self]
  · rw [alookup_aerase_ne _ _ _ h, alookup_aerase_self]

theorem tsHash_def (m : LinkMessage) : m.tsHash = makeTsHash m.data.timestamp m.hash := rfl

theorem putLinkTxn_nextId (s : LinkStoreState) (m : LinkMessage) :
    (putLinkTxn s m).nextId = s.nextId := rfl

theorem putLinkTxn_events (s : LinkStoreState) (m : LinkMessage) :
    (putLinkTxn s m).events = s.events := rfl

theorem deleteLinkTxn_nextId (s : LinkStoreState) (m : LinkMessage) :
    (deleteLinkTxn s m).nextId = s.nextId := rfl

theorem deleteLinkTxn_events (s : LinkStoreState) (m : LinkMessage) :
    (deleteLinkTxn s m).events = s.events := rfl

theorem isPrunable_of_count_lt (s : LinkStoreState) (m : LinkMessage) (limit : Nat)
    (h : linkCount s m.data.fid < limit) : isPrunable s m limit = false := by
  simp [isPrunable, h]

/-- Specification of the earliest message fold: a produced minimum belongs to
the folded list (or was the start accumulator) and sorts at or below every
element and the start accumulator. -/
theorem foldlMin_spec (l : List LinkMessage) :
    ∀ (acc : Option LinkMessage) (m : LinkMessage),
      l.foldl (fun a x =>
        match a with
        | none => some x
        | some u => if bytesCompare x.tsHash u.tsHash < 0 then some x else some u) acc = some m →
      (∀ x ∈ l, bytesCompare m.tsHash x.tsHash ≤ 0)
        ∧ (m ∈ l ∨ acc = some m)
        ∧ (∀ u, acc = some u → bytesCompare m.tsHash u.tsHash ≤ 0) := by
  induction l with
  | nil =>
    intro acc m h
    simp only [List.foldl_nil] at h
    refine ⟨by simp, Or.inr h, ?_⟩
    intro u hu
    rw [hu] at h
    cases h
    simp [bytesCompare_self]
  | cons x xs ih =>
    intro acc m h
    rw [List.foldl_cons] at h
    cases acc with
    | none =>
      obtain ⟨h1, h2, h3⟩ := ih (some x) m h
      have hmx : bytesCompare m.tsHash x.tsHash ≤ 0 := h3 x rfl
      refine ⟨?_, ?_, ?_⟩
      · intro y hy
        rcases List.mem_cons.mp hy with hy | hy
        · rw [hy]; exact hmx
        · exact h1 y hy
      · rcases h2 with h2 | h2
        · exact Or.inl (List.mem_cons_of_mem x h2)
        · cases h2; exact Or.inl (List.mem_cons_self x xs)
      · intro u hu
        cases hu
    | some u0 =>
      simp only [] at h
      by_cases hc : bytesCompare x.tsHash u0.tsHash < 0
      · rw [if_pos hc] at h
        obtain ⟨h1, h2, h3⟩ := ih (some x) m h
        have hmx : bytesCompare m.tsHash x.tsHash ≤ 0 := h3 x rfl
        have hmu : bytesCompare m.tsHash u0.tsHash ≤ 0 :=
          bytesCompare_trans_le _ _ _ hmx (le_of_lt hc)
        refine ⟨?_, ?_, ?_⟩
        · intro y hy
          rcases List.mem_cons.mp hy with hy | hy
          · rw [hy]; exact hmx
          · exact h1 y hy
        · rcases h2 with h2 | h2
          · exact Or.inl (List.mem_cons_of_mem x h2)
          · cases h2; exact Or.inl (List.mem_cons_self x xs)
        · intro u hu
          cases hu
          exact hmu
      · rw [if_neg hc] at h
        obtain ⟨h1, h2, h3⟩ := ih (some u0) m h
        have hmu : bytesCompare m.tsHash u0.tsHash ≤ 0 := h3 u0 rfl
        have hux : bytesCompare u0.tsHash x.tsHash ≤ 0 := by
          have := bytesCompare_neg u0.tsHash x.tsHash
          omega
        have hmx : bytesCompare m.tsHash x.tsHash ≤ 0 :=
          bytesCompare_trans_le _ _ _ hmu hux
        refine ⟨?_, ?_, ?_⟩
        · intro y hy
          rcases List.mem_cons.mp hy with hy | hy
          · rw [hy]; exact hmx
          · exact h1 y hy
        · rcases h2 with h2 | h2
          · exact Or.inl (List.mem_cons_of_mem x h2)
          · exact Or.inr h2
        · intro u hu
          cases hu
          exact hmu

/-- The earliest message fold never returns none when it has something to
fold. -/
theorem foldlMin_ne_none (l : List LinkMessage) :
    ∀ (acc : Option LinkMessage), (l ≠ [] ∨ acc ≠ none) →
      l.foldl (fun a x =>
        match a with
        | none => some x
        | some u => if bytesCompare x.tsHash u.tsHash < 0 then some x else some u) acc
        ≠ none := by
  induction l with
  | nil =>
    intro acc h
    simp only [List.foldl_nil]
    rcases h with h | h
    · exact absurd rfl h
    · exact h
  | cons x xs ih =>
    intro acc _
    rw [List.foldl_cons]
    apply ih
    right
    cases acc with
    | none => simp
    | some u0 =>
      by_cases hc : bytesCompare x.tsHash u0.tsHash < 0 <;> simp [hc]

/-- The earliest message of a fid is one of its messages and sorts at or
below every one of them. -/
theorem earliestLinkMessage_spec (s : LinkStoreState) (fid : Nat) (m : LinkMessage)
    (h : earliestLinkMessage s fid = some m) :
    m ∈ linkMessagesOfFid s fid
      ∧ ∀ q ∈ linkMessagesOfFid s fid, bytesCompare m.tsHash q.tsHash ≤ 0 := by
  obtain ⟨h1, h2, _⟩ := foldlMin_spec (linkMessagesOfFid s fid) none m h
  refine ⟨?_, h1⟩
  rcases h2 with h2 | h2
  · exact h2
  · cases h2

/-- A fid with at least one message has an earliest message. -/
theorem earliestLinkMessage_isSome (s : LinkStoreState) (fid : Nat)
    (h : 0 < linkCount s fid) : ∃ m, earliestLinkMessage s fid = some m := by
  have hne : linkMessagesOfFid s fid ≠ [] := by
    intro hnil
    rw [linkCount, hnil] at h
    simp at h
  have := foldlMin_ne_none (linkMessagesOfFid s fid) none (Or.inl hne)
  cases he : earliestLinkMessage s fid with
  | none => exact absurd he this
  | some m => exact ⟨m, rfl⟩

theorem aerase_eq_self {K V : Type} [DecidableEq K] (k : K) (l : List (K × V))
    (h : ∀ p ∈ l, p.1 ≠ k) : aerase k l = l := by
  rw [aerase, List.filter_eq_self]
  intro p hp
  simp [h p hp]

/-- Erasing a stored key from well keyed primary rows drops exactly one
message of its fid. -/
theorem length_msgs_aerase (l : List ((Nat × List Nat) × LinkMessage)) (fid : Nat)
    (k : Nat × List Nat) (v : LinkMessage)
    (hnodup : (l.map Prod.fst).Nodup) (hmem : (k, v) ∈ l) (hfid : k.1 = fid) :
    ((aerase k l).filterMap (fun e => if e.1.1 = fid then some e.2 else none)).length
      = (l.filterMap (fun e => if e.1.1 = fid then some e.2 else none)).length - 1 := by
  induction l with
  | nil => cases hmem
  | cons e l2 ih =>
    have hnodup2 : (l2.map Prod.fst).Nodup := (List.nodup_cons.mp hnodup).2
    have hnotin : e.1 ∉ l2.map Prod.fst := (List.nodup_cons.mp hnodup).1
    by_cases hek : e.1 = k
    · have h1 : aerase k (e :: l2) = aerase k l2 := by
        obtain ⟨e1, e2⟩ := e
        simp only at hek
        rw [hek]
        exact aerase_cons_self k e2 l2
      have h2 : aerase k l2 = l2 := by
        apply aerase_eq_self
        intro p hp hpk
        exact hnotin (by rw [hek, ← hpk]; exact List.mem_map_of_mem Prod.fst hp)
      have hef : e.1.1 = fid := by rw [hek, hfid]
      rw [h1, h2, List.filterMap_cons, if_pos hef]
      simp
    · have h1 : aerase k (e :: l2) = e :: aerase k l2 := by
        simp [aerase, hek]
      have hmem2 : (k, v) ∈ l2 := by
        rcases List.mem_cons.mp hmem with hh | hh
        · exact absurd (by rw [← hh]) hek
        · exact hh
      have hpos : 0 < (l2.filterMap (fun e => if e.1.1 = fid then some e.2 else none)).length := by
        have : v ∈ l2.filterMap (fun e => if e.1.1 = fid then some e.2 else none) := by
          rw [List.mem_filterMap]
          exact ⟨(k, v), hmem2, by simp [hfid]⟩
        exact List.length_pos.mpr (List.ne_nil_of_mem this)
      have ih2 := ih hnodup2 hmem2
      rw [h1, List.filterMap_cons, List.filterMap_cons]
      by_cases hef : e.1.1 = fid
      · rw [if_pos hef]
        simp only [List.length_cons]
        omega
      · rw [if_neg hef]
        simpa using ih2

/-- Deleting a stored message decrements the active count of its fid. -/
theorem linkCount_delete (s : LinkStoreState) (m : LinkMessage) (fid : Nat)
    (hwf : wfPrimary s) (hm : m ∈ linkMessagesOfFid s fid) :
    linkCount (deleteLinkTxn s m) fid = linkCount s fid - 1 := by
  obtain ⟨e, he, hsel⟩ := List.mem_filterMap.mp hm
  by_cases hef : e.1.1 = fid
  case neg => rw [if_neg hef] at hsel; cases hsel
  rw [if_pos hef] at hsel
  cases hsel
  have hkey := hwf.2 e he
  have hkfid : e.1.1 = fid := hef
  have hmemk : ((e.2.data.fid, e.2.tsHash), e.2) ∈ s.primary := by
    rw [← hkey]
    exact he
  have hfid2 : e.2.data.fid = fid := by
    rw [hkey] at hkfid
    exact hkfid
  have := length_msgs_aerase s.primary fid (e.2.data.fid, e.2.tsHash) e.2 hwf.1 hmemk hfid2
  simpa [linkCount, linkMessagesOfFid, deleteLinkTxn] using this

/-- Deleting a message only removes messages of a fid. -/
theorem linkMessagesOfFid_delete_subset (s : LinkStoreState) (m : LinkMessage) (fid : Nat) :
    linkMessagesOfFid (deleteLinkTxn s m) fid ⊆ linkMessagesOfFid s fid := by
  intro q hq
  exact (((List.filter_sublist s.primary).filterMap _).subset) hq

/-- Deleting a message preserves well keyed primary rows. -/
theorem wfPrimary_delete (s : LinkStoreState) (m : LinkMessage) (hwf : wfPrimary s) :
    wfPrimary (deleteLinkTxn s m) := by
  refine ⟨?_, ?_⟩
  · exact hwf.1.sublist ((List.filter_sublist s.primary).map Prod.fst)
  · intro e he
    exact hwf.2 e ((List.filter_sublist s.primary).subset he)

/-- Full specification of the prune loop: with enough fuel it returns one
prune commit event id per removed message, appends the matching PruneMessage
events, lowers the count of the fid accordingly, removes only messages of the
store, and every pruned message sorts at or below every message that
remains. -/
theorem pruneLoop_spec (fuel : Nat) : ∀ (limit fid : Nat) (s : LinkStoreState) (acc : List Nat),
    wfPrimary s → linkCount s fid - limit ≤ fuel →
    ∃ ids pruned,
      (pruneLoop fuel limit fid s acc).1 = acc.reverse ++ ids
        ∧ (pruneLoop fuel limit fid s acc).2.events
            = s.events ++ List.zipWith HubEvent.pruneMessage ids pruned
        ∧ ids.length = linkCount s fid - limit
        ∧ pruned.length = ids.length
        ∧ linkCount (pruneLoop fuel limit fid s acc).2 fid = linkCount s fid - ids.length
        ∧ (∀ p ∈ pruned, p ∈ linkMessagesOfFid s fid)
        ∧ linkMessagesOfFid (pruneLoop fuel limit fid s acc).2 fid ⊆ linkMessagesOfFid s fid
        ∧ (∀ p ∈ pruned, ∀ q ∈ linkMessagesOfFid (pruneLoop fuel limit fid s acc).2 fid,
            bytesCompare p.tsHash q.tsHash ≤ 0)
        ∧ wfPrimary (pruneLoop fuel limit fid s acc).2 := by
  induction fuel with
  | zero =>
    intro limit fid s acc hwf hfuel
    have hres : pruneLoop 0 limit fid s acc = (acc.reverse, s) := rfl
    refine ⟨[], [], ?_, ?_, ?_, rfl, ?_, ?_, ?_, ?_, ?_⟩
    · rw [hres]; simp
    · rw [hres]; simp
    · simp only [List.length_nil]; omega
    · rw [hres]; simp
    · intro p hp; cases hp
    · rw [hres]; exact fun q hq => hq
    · intro p hp; cases hp
    · rw [hres]; exact hwf
  | succ fuel ih =>
    intro limit fid s acc hwf hfuel
    by_cases hle : linkCount s fid ≤ limit
    · have hres : pruneLoop (fuel + 1) limit fid s acc = (acc.reverse, s) := by
        simp [pruneLoop, hle]
      refine ⟨[], [], ?_, ?_, ?_, rfl, ?_, ?_, ?_, ?_, ?_⟩
      · rw [hres]; simp
      · rw [hres]; simp
      · simp only [List.length_nil]; omega
      · rw [hres]; simp
      · intro p hp; cases hp
      · rw [hres]; exact fun q hq => hq
      · intro p hp; cases hp
      · rw [hres]; exact hwf
    · have hpos : 0 < linkCount s fid := by omega
      obtain ⟨m, hm⟩ := earliestLinkMessage_isSome s fid hpos
      obtain ⟨hmmem, hmmin⟩ := earliestLinkMessage_spec s fid m hm
      have hstep : pruneLoop (fuel + 1) limit fid s acc
          = pruneLoop fuel limit fid
              { deleteLinkTxn s m with
                  events := s.events ++ [.pruneMessage s.nextId m]
                  nextId := s.nextId + 1 } (s.nextId :: acc) := by
        simp only [pruneLoop, if_neg hle, hm]
        rfl
      set s2 : LinkStoreState :=
        { deleteLinkTxn s m with
            events := s.events ++ [.pruneMessage s.nextId m]
            nextId := s.nextId + 1 } with hs2def
      have hwf2 : wfPrimary s2 := wfPrimary_delete s m hwf
      have hcnt2 : linkCount s2 fid = linkCount s fid - 1 := linkCount_delete s m fid hwf hmmem
      have hsub2 : linkMessagesOfFid s2 fid ⊆ linkMessagesOfFid s fid :=
        linkMessagesOfFid_delete_subset s m fid
      have hfuel2 : linkCount s2 fid - limit ≤ fuel := by omega
      obtain ⟨ids2, pruned2, g1, g2, g3, g4, g5, g6, g7, g8, g9⟩ :=
        ih limit fid s2 (s.nextId :: acc) hwf2 hfuel2
      refine ⟨s.nextId :: ids2, m :: pruned2, ?_, ?_, ?_, ?_, ?_, ?_, ?_, ?_, ?_⟩
      · rw [hstep, g1]
        simp
      · rw [hstep, g2]
        simp [hs2def]
      · simp only [List.length_cons, g3, hcnt2]
        omega
      · simp [g4]
      · rw [hstep, g5, hcnt2]
        simp only [List.length_cons]
        omega
      · intro p hp
        rcases List.mem_cons.mp hp with hp | hp
        · rw [hp]; exact hmmem
        · exact hsub2 (g6 p hp)
      · rw [hstep]
        exact fun q hq => hsub2 (g7 hq)
      · intro p hp q hq
        rw [hstep] at hq
        rcases List.mem_cons.mp hp with hp | hp
        · rw [hp]
          exact hmmin q (hsub2 (g7 hq))
        · exact g8 p hp q hq
      · rw [hstep]
        exact g9

/-- C1 (counterexample): a LinkAdd and a LinkRemove for the same
(fid, type, targetFid) carry the identical timestamp 100, and the hash of the
remove is even the lower one; merging the remove into a store holding the add
nevertheless succeeds, afterwards the remove is the stored winner and the add
is gone, so the Add does not win the conflict. -/
theorem linkStore_add_wins_identical_ts_counterexample :
    (mkLink 9 .add 100 followBytes 10 [7]).data.timestamp
        = (mkLink 9 .remove 100 followBytes 10 [6]).data.timestamp
      ∧ (do
          let r1 ← merge 100 emptyStore (mkLink 9 .add 100 followBytes 10 [7])
          let r2 ← merge 100 r1.2 (mkLink 9 .remove 100 followBytes 10 [6])
          pure (r2.1, getLinkRemove r2.2 9 followBytes 10, getLinkAdd r2.2 9 followBytes 10) :
          Except HubError (Nat × Except HubError LinkMessage × Except HubError LinkMessage))
        = .ok (2, .ok (mkLink 9 .remove 100 followBytes 10 [6]),
            .error ⟨.notFound, "message not found"⟩) := by
  exact ⟨rfl, by decide⟩

/-- C5 (amended): for a store with size limit L and a fid with more than L
active messages, pruneMessages removes exactly the earliest messages by
TsHash until the count is within L, returns one prune commit event id per
removed message — the removed messages travel in the emitted PruneMessage
events — and emits one PruneMessage event per removed message; in the
concrete scenario (pruneSizeLimit 3, five LinkAdd messages with timestamps
t+1..t+5) the two earliest are pruned, their PruneMessage events are emitted,
and the remaining three stay queryable. -/
theorem linkStore_pruneMessages_spec (s : LinkStoreState) (fid limit : Nat)
    (hwf : wfPrimary s) (hover : limit < linkCount s fid) :
    (∃ ids pruned,
      (pruneMessages limit s fid).1 = ids
        ∧ ids.length = linkCount s fid - limit
        ∧ pruned.length = ids.length
        ∧ (pruneMessages limit s fid).2.events
            = s.events ++ List.zipWith HubEvent.pruneMessage ids pruned
        ∧ linkCount (pruneMessages limit s fid).2 fid = limit
        ∧ (∀ p ∈ pruned, p ∈ linkMessagesOfFid s fid)
        ∧ (∀ p ∈ pruned, ∀ q ∈ linkMessagesOfFid (pruneMessages limit s fid).2 fid,
            bytesCompare p.tsHash q.tsHash ≤ 0))
      ∧ (do
          let r1 ← merge 3 emptyStore (pruneAdd 1)
          let r2 ← merge 3 r1.2 (pruneAdd 2)
          let r3 ← merge 3 r2.2 (pruneAdd 3)
          let r4 ← merge 3 r3.2 (pruneAdd 4)
          let r5 ← merge 3 r4.2 (pruneAdd 5)
          let p := pruneMessages 3 r5.2 9
          pure (p.1, prunedOf p.2.events,
            [getLinkAdd p.2 9 followBytes 21, getLinkAdd p.2 9 followBytes 22,
              getLinkAdd p.2 9 followBytes 23, getLinkAdd p.2 9 followBytes 24,
              getLinkAdd p.2 9 followBytes 25]) :
          Except HubError (List Nat × List LinkMessage × List (Except HubError LinkMessage)))
        = .ok ([6, 7], [pruneAdd 1, pruneAdd 2],
            [.error ⟨.notFound, "message not found"⟩, .error ⟨.notFound, "message not found"⟩,
              .ok (pruneAdd 3), .ok (pruneAdd 4), .ok (pruneAdd 5)]) := by
  constructor
  · obtain ⟨ids, pruned, g1, g2, g3, g4, g5, g6, g7, g8, _⟩ :=
      pruneLoop_spec (linkCount s fid) limit fid s [] hwf (by omega)
    refine ⟨ids, pruned, ?_, g3, g4, g2, ?_, g6, g8⟩
    · rw [pruneMessages, g1]
      simp
    · rw [pruneMessages, g5, g3]
      omega
  · decide

/-- C5 (witness): the full store of three messages pruned with limit 2. -/
theorem linkStore_pruneMessages_spec_witness :
    wfPrimary fullStore3 ∧ 2 < linkCount fullStore3 9
      ∧ ((∃ ids pruned,
          (pruneMessages 2 fullStore3 9).1 = ids
            ∧ ids.length = linkCount fullStore3 9 - 2
            ∧ pruned.length = ids.length
            ∧ (pruneMessages 2 fullStore3 9).2.events
                = fullStore3.events ++ List.zipWith HubEvent.pruneMessage ids pruned
            ∧ linkCount (pruneMessages 2 fullStore3 9).2 9 = 2
            ∧ (∀ p ∈ pruned, p ∈ linkMessagesOfFid fullStore3 9)
            ∧ (∀ p ∈ pruned, ∀ q ∈ linkMessagesOfFid (pruneMessages 2 fullStore3 9).2 9,
                bytesCompare p.tsHash q.tsHash ≤ 0))
        ∧ (do
            let r1 ← merge 3 emptyStore (pruneAdd 1)
            let r2 ← merge 3 r1.2 (pruneAdd 2)
            let r3 ← merge 3 r2.2 (pruneAdd 3)
            let r4 ← merge 3 r3.2 (pruneAdd 4)
            let r5 ← merge 3 r4.2 (pruneAdd 5)
            let p := pruneMessages 3 r5.2 9
            pure (p.1, prunedOf p.2.events,
              [getLinkAdd p.2 9 followBytes 21, getLinkAdd p.2 9 followBytes 22,
                getLinkAdd p.2 9 followBytes 23, getLinkAdd p.2 9 followBytes 24,
                getLinkAdd p.2 9 followBytes 25]) :
            Except HubError (List Nat × List LinkMessage × List (Except HubError LinkMessage)))
          = .ok ([6, 7], [pruneAdd 1, pruneAdd 2],
              [.error ⟨.notFound, "message not found"⟩, .error ⟨.notFound, "message not found"⟩,
                .ok (pruneAdd 3), .ok (pruneAdd 4), .ok (pruneAdd 5)])) :=
  ⟨⟨by decide, by decide⟩, by decide,
    linkStore_pruneMessages_spec fullStore3 9 2 ⟨by decide, by decide⟩ (by decide)⟩

/-- C5 (counterexample): in the quota prune scenario (pruneSizeLimit 3, five
LinkAdd messages with timestamps t+1..t+5) pruneMessages returns the list of
the two prune commit event ids [6, 7], not the list of the two pruned
messages; the pruned messages themselves travel in the PruneMessage events. -/
theorem linkStore_prune_returns_ids_counterexample :
    (do
        let r1 ← merge 3 emptyStore (pruneAdd 1)
        let r2 ← merge 3 r1.2 (pruneAdd 2)
        let r3 ← merge 3 r2.2 (pruneAdd 3)
        let r4 ← merge 3 r3.2 (pruneAdd 4)
        let r5 ← merge 3 r4.2 (pruneAdd 5)
        let p := pruneMessages 3 r5.2 9
        pure (p.1, prunedOf p.2.events) :
        Except HubError (List Nat × List LinkMessage))
      = .ok ([6, 7], [pruneAdd 1, pruneAdd 2]) := by
  decide

/-- C7: legacy variable width index entries keep working and get migrated.
Reads resolve a message stored under the unpadded legacy key (both for a
LinkAdd and for a LinkRemove); a merge that touches the same (fid, body key)
deletes the legacy keyed entry and the superseded primary row and writes the
fixed width padded entry in the same transaction, after which the legacy key
no longer exists. -/
theorem linkStore_legacy_padding_migration :
    getLinkAdd (storeWithIncorrectPadding (mkLink 9 .add 100 followBytes 10 [7]))
        9 followBytes 10 = .ok (mkLink 9 .add 100 followBytes 10 [7])
      ∧ getLinkRemove (storeWithIncorrectPadding (mkLink 9 .remove 101 followBytes 10 [8]))
        9 followBytes 10 = .ok (mkLink 9 .remove 101 followBytes 10 [8])
      ∧ ((merge 100 (storeWithIncorrectPadding (mkLink 9 .add 99 followBytes 10 [5]))
            (mkLink 9 .add 100 followBytes 10 [7])).map (fun out =>
          (alookup (legacyLinksKey 9 followBytes 10) out.2.linkAdds,
            alookup (makeLinksKey 9 followBytes 10) out.2.linkAdds,
            alookup (9, (mkLink 9 .add 99 followBytes 10 [5]).tsHash) out.2.primary,
            getLinkAdd out.2 9 followBytes 10)))
        = .ok (none, some (mkLink 9 .add 100 followBytes 10 [7]).tsHash, none,
            .ok (mkLink 9 .add 100 followBytes 10 [7]))
      ∧ ((merge 100 (storeWithIncorrectPadding (mkLink 9 .remove 100 followBytes 10 [4]))
            (mkLink 9 .add 101 followBytes 10 [9])).map (fun out =>
          (alookup (legacyLinksKey 9 followBytes 10) out.2.linkRemoves,
            alookup (9, (mkLink 9 .remove 100 followBytes 10 [4]).tsHash) out.2.primary,
            getLinkAdd out.2 9 followBytes 10)))
        = .ok (none, none, .ok (mkLink 9 .add 101 followBytes 10 [9])) := by
  decide

/-- C10: revoking a link message that was never merged into the store (its
primary row is absent) succeeds with the positive commit event id rather than
failing with not_found, emits one RevokeMessage event carrying the message,
and afterwards the message is not queryable. -/
theorem linkStore_revoke_unmerged (s : LinkStoreState) (m : LinkMessage)
    (hnm : alookup (m.data.fid, m.tsHash) s.primary = none)
    (hid : 0 < s.nextId) :
    ∃ out, revoke s m = .ok out ∧ out.1 = s.nextId ∧ 0 < out.1
      ∧ out.2.events = s.events ++ [.revokeMessage s.nextId m]
      ∧ (m.data.type = .add →
          getLinkAdd out.2 m.data.fid m.data.linkBody.type m.data.linkBody.targetFid
            = .error ⟨.notFound, "message not found"⟩)
      ∧ (m.data.type = .remove →
          getLinkRemove out.2 m.data.fid m.data.linkBody.type m.data.linkBody.targetFid
            = .error ⟨.notFound, "message not found"⟩) := by
  refine ⟨_, rfl, rfl, hid, rfl, ?_, ?_⟩
  · intro h
    simp [getLinkAdd, deleteLinkTxn, h, lookup_deleteIndexEntries_self]
    rfl
  · intro h
    simp [getLinkRemove, deleteLinkTxn, h, lookup_deleteIndexEntries_self]
    rfl

/-- C10 (witness): revoking a concrete unmerged LinkAdd on the empty store. -/
theorem linkStore_revoke_unmerged_witness :
    alookup ((mkLink 9 .add 100 followBytes 10 [7]).data.fid,
        (mkLink 9 .add 100 followBytes 10 [7]).tsHash) emptyStore.primary = none
      ∧ 0 < emptyStore.nextId
      ∧ ∃ out, revoke emptyStore (mkLink 9 .add 100 followBytes 10 [7]) = .ok out
          ∧ out.1 = emptyStore.nextId ∧ 0 < out.1
          ∧ out.2.events = emptyStore.events
              ++ [.revokeMessage emptyStore.nextId (mkLink 9 .add 100 followBytes 10 [7])]
          ∧ ((mkLink 9 .add 100 followBytes 10 [7]).data.type = .add →
              getLinkAdd out.2 (mkLink 9 .add 100 followBytes 10 [7]).data.fid
                  (mkLink 9 .add 100 followBytes 10 [7]).data.linkBody.type
                  (mkLink 9 .add 100 followBytes 10 [7]).data.linkBody.targetFid
                = .error ⟨.notFound, "message not found"⟩)
          ∧ ((mkLink 9 .add 100 followBytes 10 [7]).data.type = .remove →
              getLinkRemove out.2 (mkLink 9 .add 100 followBytes 10 [7]).data.fid
                  (mkLink 9 .add 100 followBytes 10 [7]).data.linkBody.type
                  (mkLink 9 .add 100 followBytes 10 [7]).data.linkBody.targetFid
                = .error ⟨.notFound, "message not found"⟩) :=
  ⟨by decide, by decide,
    linkStore_revoke_unmerged emptyStore (mkLink 9 .add 100 followBytes 10 [7])
      (by decide) (by decide)⟩

/-- C3: merging a message into a store where the very same message is already
present fails with bad_request.duplicate (message has already been merged);
the failed transaction leaves the store state, indices and committed events
untouched. -/
theorem linkStore_merge_duplicate (s : LinkStoreState) (m : LinkMessage) (limit : Nat)
    (hcnt : linkCount s m.data.fid < limit)
    (hAdds : lookupLinkIndex s.linkAdds m.data.fid m.data.linkBody.type
        m.data.linkBody.targetFid = if m.data.type = .add then some m.tsHash else none)
    (hRems : lookupLinkIndex s.linkRemoves m.data.fid m.data.linkBody.type
        m.data.linkBody.targetFid = if m.data.type = .remove then some m.tsHash else none) :
    merge limit s m = .error ⟨.badRequestDuplicate, "message has already been merged"⟩ := by
  have hprun := isPrunable_of_count_lt s m limit hcnt
  cases hk : m.data.type with
  | add =>
    rw [hk] at hAdds hRems
    simp only [if_pos, if_neg] at hAdds hRems
    simp [merge, hprun, getMergeConflicts, hAdds, hRems, hk, linkMessageCompare_self,
      Functor.map, Except.map, Bind.bind, Except.bind, throw, throwThe, MonadExceptOf.throw,
      pure, Except.pure]
  | remove =>
    rw [hk] at hAdds hRems
    simp only [if_pos, if_neg] at hAdds hRems
    simp [merge, hprun, getMergeConflicts, hAdds, hRems, hk, linkMessageCompare_self,
      Functor.map, Except.map, Bind.bind, Except.bind, throw, throwThe, MonadExceptOf.throw,
      pure, Except.pure]

/-- C3 (witness): a concrete store holding one LinkAdd rejects the same
message as a duplicate. -/
theorem linkStore_merge_duplicate_witness :
    linkCount (storeWithIncorrectPadding (mkLink 9 .add 100 followBytes 10 [7]))
        (mkLink 9 .add 100 followBytes 10 [7]).data.fid < 5
      ∧ merge 5 (storeWithIncorrectPadding (mkLink 9 .add 100 followBytes 10 [7]))
          (mkLink 9 .add 100 followBytes 10 [7])
        = .error ⟨.badRequestDuplicate, "message has already been merged"⟩ :=
  ⟨by decide,
    linkStore_merge_duplicate (storeWithIncorrectPadding (mkLink 9 .add 100 followBytes 10 [7]))
      (mkLink 9 .add 100 followBytes 10 [7]) 5 (by decide) (by decide) (by decide)⟩

/-- C4: an incoming message that loses LWW resolution against an already
stored conflicting message — here a LinkAdd with an earlier timestamp merged
after a LinkAdd with a later timestamp for the same (fid, body key) — fails
with bad_request.conflict, and the stored winner stays queryable. -/
theorem linkStore_merge_conflict_earlier_loses (s : LinkStoreState) (w l : LinkMessage)
    (limit : Nat)
    (hw : w.data.type = .add) (hl : l.data.type = .add)
    (hbw : w.data.timestamp < 2 ^ 32) (hbl : l.data.timestamp < 2 ^ 32)
    (hts : l.data.timestamp < w.data.timestamp)
    (hcnt : linkCount s l.data.fid < limit)
    (hAdds : lookupLinkIndex s.linkAdds l.data.fid l.data.linkBody.type
        l.data.linkBody.targetFid = some w.tsHash)
    (hRems : lookupLinkIndex s.linkRemoves l.data.fid l.data.linkBody.type
        l.data.linkBody.targetFid = none)
    (hPrim : alookup (l.data.fid, w.tsHash) s.primary = some w) :
    merge limit s l = .error ⟨.badRequestConflict, "message conflicts with a more recent add"⟩
      ∧ getLinkAdd s l.data.fid l.data.linkBody.type l.data.linkBody.targetFid = .ok w := by
  have hprun := isPrunable_of_count_lt s l limit hcnt
  have hcmp : linkMessageCompare .add w.tsHash l.data.type l.tsHash = 1 := by
    rw [hl, tsHash_def, tsHash_def]
    exact linkMessageCompare_ts_gt .add .add w.data.timestamp l.data.timestamp
      w.hash l.hash hbw hbl hts
  constructor
  · simp [merge, hprun, getMergeConflicts, hAdds, hRems, hcmp,
      Functor.map, Except.map, Bind.bind, Except.bind, throw, throwThe, MonadExceptOf.throw,
      pure, Except.pure]
  · simp [getLinkAdd, hAdds, hPrim]
    rfl

/-- C4 (witness): a LinkAdd with timestamp 99 loses against the stored
LinkAdd with timestamp 101 for the same body key. -/
theorem linkStore_merge_conflict_earlier_loses_witness :
    (mkLink 9 .add 99 followBytes 10 [5]).data.timestamp
        < (mkLink 9 .add 101 followBytes 10 [7]).data.timestamp
      ∧ merge 5 (storeWithIncorrectPadding (mkLink 9 .add 101 followBytes 10 [7]))
          (mkLink 9 .add 99 followBytes 10 [5])
        = .error ⟨.badRequestConflict, "message conflicts with a more recent add"⟩
      ∧ getLinkAdd (storeWithIncorrectPadding (mkLink 9 .add 101 followBytes 10 [7]))
          (mkLink 9 .add 99 followBytes 10 [5]).data.fid
          (mkLink 9 .add 99 followBytes 10 [5]).data.linkBody.type
          (mkLink 9 .add 99 followBytes 10 [5]).data.linkBody.targetFid
        = .ok (mkLink 9 .add 101 followBytes 10 [7]) :=
  ⟨by decide,
    (linkStore_merge_conflict_earlier_loses
      (storeWithIncorrectPadding (mkLink 9 .add 101 followBytes 10 [7]))
      (mkLink 9 .add 101 followBytes 10 [7]) (mkLink 9 .add 99 followBytes 10 [5]) 5
      (by decide) (by decide) (by decide) (by decide) (by decide) (by decide)
      (by decide) (by decide) (by decide)).1,
    (linkStore_merge_conflict_earlier_loses
      (storeWithIncorrectPadding (mkLink 9 .add 101 followBytes 10 [7]))
      (mkLink 9 .add 101 followBytes 10 [7]) (mkLink 9 .add 99 followBytes 10 [5]) 5
      (by decide) (by decide) (by decide) (by decide) (by decide) (by decide)
      (by decide) (by decide) (by decide)).2⟩

/-- C1 (amended): conflicting link messages with the same (fid, body key) are
resolved by the lexicographic total order on (timestamp, message type
priority, hash) in which REMOVE beats ADD when the timestamps are identical,
whatever the hashes: the compare puts the remove strictly above the add, a
LinkRemove merged over a stored LinkAdd with the identical timestamp wins and
displaces it, and a LinkAdd merged over a stored LinkRemove with the identical
timestamp fails with bad_request.conflict. -/
theorem linkStore_remove_beats_add_identical_ts (s sR : LinkStoreState)
    (a r : LinkMessage) (limit : Nat)
    (hak : a.data.type = .add) (hrk : r.data.type = .remove)
    (hfid : r.data.fid = a.data.fid) (hbody : r.data.linkBody = a.data.linkBody)
    (hts : r.data.timestamp = a.data.timestamp)
    (hcnt : linkCount s r.data.fid < limit)
    (hsAdds : lookupLinkIndex s.linkAdds r.data.fid r.data.linkBody.type
        r.data.linkBody.targetFid = some a.tsHash)
    (hsRems : lookupLinkIndex s.linkRemoves r.data.fid r.data.linkBody.type
        r.data.linkBody.targetFid = none)
    (hsPrim : alookup (r.data.fid, a.tsHash) s.primary = some a)
    (hcntR : linkCount sR a.data.fid < limit)
    (hrRems : lookupLinkIndex sR.linkRemoves a.data.fid a.data.linkBody.type
        a.data.linkBody.targetFid = some r.tsHash) :
    linkMessageCompare .remove r.tsHash .add a.tsHash = 1
      ∧ (∃ out, merge limit s r = .ok out ∧ out.1 = s.nextId
          ∧ out.2.events = s.events ++ [.mergeMessage s.nextId r [a]]
          ∧ getLinkAdd out.2 r.data.fid r.data.linkBody.type r.data.linkBody.targetFid
              = .error ⟨.notFound, "message not found"⟩
          ∧ getLinkRemove out.2 r.data.fid r.data.linkBody.type r.data.linkBody.targetFid
              = .ok r)
      ∧ merge limit sR a
          = .error ⟨.badRequestConflict, "message conflicts with a more recent remove"⟩ := by
  have hprun := isPrunable_of_count_lt s r limit hcnt
  have hprunR := isPrunable_of_count_lt sR a limit hcntR
  have hcmp1 : linkMessageCompare .remove r.tsHash .add a.tsHash = 1 := by
    rw [tsHash_def, tsHash_def, hts]
    exact linkMessageCompare_remove_add a.data.timestamp r.hash a.hash
  have hcmpA : linkMessageCompare .add a.tsHash r.data.type r.tsHash = -1 := by
    rw [hrk, tsHash_def, tsHash_def, hts]
    exact linkMessageCompare_add_remove a.data.timestamp a.hash r.hash
  have hcmpR : linkMessageCompare .remove r.tsHash a.data.type a.tsHash = 1 := by
    rw [hak]
    exact hcmp1
  refine ⟨hcmp1, ?_, ?_⟩
  · have hconf : getMergeConflicts s r = .ok [a] := by
      simp [getMergeConflicts, hsAdds, hsRems, hsPrim, hcmpA, Bind.bind, Except.bind,
        pure, Except.pure]
    have hm : merge limit s r
        = .ok (s.nextId,
            { putLinkTxn (deleteLinkTxn s a) r with
                events := s.events ++ [.mergeMessage s.nextId r [a]]
                nextId := s.nextId + 1 }) := by
      simp [merge, hprun, hconf, Bind.bind, Except.bind, pure, Except.pure,
        Functor.map, Except.map, List.foldl, putLinkTxn_nextId, putLinkTxn_events,
        deleteLinkTxn_nextId, deleteLinkTxn_events]
    refine ⟨_, hm, rfl, rfl, ?_, ?_⟩
    · have hadds : (putLinkTxn (deleteLinkTxn s a) r).linkAdds
          = deleteIndexEntries s.linkAdds a.data.fid a.data.linkBody.type
              a.data.linkBody.targetFid := by
        simp [putLinkTxn, deleteLinkTxn, hak, hrk]
      simp only [getLinkAdd, hadds, hfid, hbody, lookup_deleteIndexEntries_self]
      rfl
    · have hrems : (putLinkTxn (deleteLinkTxn s a) r).linkRemoves
          = (makeLinksKey r.data.fid r.data.linkBody.type r.data.linkBody.targetFid,
                r.tsHash) ::
              aerase (makeLinksKey r.data.fid r.data.linkBody.type r.data.linkBody.targetFid)
                (deleteLinkTxn s a).linkRemoves := by
        simp [putLinkTxn, hrk]
      have hprim : (putLinkTxn (deleteLinkTxn s a) r).primary
          = ((r.data.fid, r.tsHash), r) ::
              aerase (r.data.fid, r.tsHash) (deleteLinkTxn s a).primary := by
        simp [putLinkTxn]
      simp only [getLinkRemove, hrems, hprim, lookupLinkIndex, alookup_cons_self]
      rfl
  · simp [merge, hprunR, getMergeConflicts, hrRems, hcmpR, Bind.bind, Except.bind,
      pure, Except.pure, Functor.map, Except.map, throw, throwThe, MonadExceptOf.throw]

/-- C6: when a store is at its size limit, a new message whose TsHash sorts
before the current earliest message is rejected with bad_request.prunable,
while a message that does not sort before the earliest (and meets no
conflict) still merges successfully. -/
theorem linkStore_merge_prunable (s : LinkStoreState) (m m2 e : LinkMessage) (limit : Nat)
    (hfull : limit ≤ linkCount s m.data.fid)
    (hearly : earliestLinkMessage s m.data.fid = some e)
    (holder : bytesCompare m.tsHash e.tsHash < 0)
    (hfull2 : limit ≤ linkCount s m2.data.fid)
    (hearly2 : earliestLinkMessage s m2.data.fid = some e)
    (hnewer : ¬bytesCompare m2.tsHash e.tsHash < 0)
    (hA2 : lookupLinkIndex s.linkAdds m2.data.fid m2.data.linkBody.type
        m2.data.linkBody.targetFid = none)
    (hR2 : lookupLinkIndex s.linkRemoves m2.data.fid m2.data.linkBody.type
        m2.data.linkBody.targetFid = none) :
    merge limit s m = .error ⟨.badRequestPrunable, "message would be pruned"⟩
      ∧ ∃ out, merge limit s m2 = .ok out ∧ out.1 = s.nextId := by
  have hp1 : isPrunable s m limit = true := by
    simp [isPrunable, Nat.not_lt.mpr hfull, hearly, holder]
  have hp2 : isPrunable s m2 limit = false := by
    simp [isPrunable, Nat.not_lt.mpr hfull2, hearly2, hnewer]
  constructor
  · simp [merge, hp1, Bind.bind, Except.bind, throw, throwThe, MonadExceptOf.throw]
  · refine ⟨(s.nextId, { putLinkTxn s m2 with
        events := s.events ++ [.mergeMessage s.nextId m2 []], nextId := s.nextId + 1 }),
      ?_, rfl⟩
    simp [merge, hp2, getMergeConflicts, hA2, hR2, Bind.bind, Except.bind, pure,
      Except.pure, Functor.map, Except.map, List.foldl, putLinkTxn_nextId, putLinkTxn_events]

/-- C6 (witness): the full store with limit 3 rejects a LinkAdd older than
its earliest message and accepts a newer one. -/
theorem linkStore_merge_prunable_witness :
    3 ≤ linkCount fullStore3 (mkLink 9 .add 50 followBytes 99 [9]).data.fid
      ∧ (merge 3 fullStore3 (mkLink 9 .add 50 followBytes 99 [9])
          = .error ⟨.badRequestPrunable, "message would be pruned"⟩
        ∧ ∃ out, merge 3 fullStore3 (pruneAdd 4) = .ok out ∧ out.1 = fullStore3.nextId) :=
  ⟨by decide,
    linkStore_merge_prunable fullStore3 (mkLink 9 .add 50 followBytes 99 [9]) (pruneAdd 4)
      (pruneAdd 1) 3 (by decide) (by decide) (by decide) (by decide) (by decide)
      (by decide) (by decide) (by decide)⟩

/-- C1 (witness): concrete LinkAdd and LinkRemove with identical timestamp
100 for body key (9, follow, 10). -/
theorem linkStore_remove_beats_add_identical_ts_witness :
    linkCount (storeWithIncorrectPadding (mkLink 9 .add 100 followBytes 10 [7]))
        (mkLink 9 .remove 100 followBytes 10 [6]).data.fid < 5
      ∧ (linkMessageCompare .remove (mkLink 9 .remove 100 followBytes 10 [6]).tsHash
            .add (mkLink 9 .add 100 followBytes 10 [7]).tsHash = 1
        ∧ (∃ out, merge 5 (storeWithIncorrectPadding (mkLink 9 .add 100 followBytes 10 [7]))
              (mkLink 9 .remove 100 followBytes 10 [6]) = .ok out
            ∧ out.1 = (storeWithIncorrectPadding (mkLink 9 .add 100 followBytes 10 [7])).nextId
            ∧ out.2.events = (storeWithIncorrectPadding (mkLink 9 .add 100 followBytes 10 [7])).events
                ++ [.mergeMessage (storeWithIncorrectPadding (mkLink 9 .add 100 followBytes 10 [7])).nextId
                      (mkLink 9 .remove 100 followBytes 10 [6])
                      [mkLink 9 .add 100 followBytes 10 [7]]]
            ∧ getLinkAdd out.2 (mkLink 9 .remove 100 followBytes 10 [6]).data.fid
                  (mkLink 9 .remove 100 followBytes 10 [6]).data.linkBody.type
                  (mkLink 9 .remove 100 followBytes 10 [6]).data.linkBody.targetFid
                = .error ⟨.notFound, "message not found"⟩
            ∧ getLinkRemove out.2 (mkLink 9 .remove 100 followBytes 10 [6]).data.fid
                  (mkLink 9 .remove 100 followBytes 10 [6]).data.linkBody.type
                  (mkLink 9 .remove 100 followBytes 10 [6]).data.linkBody.targetFid
                = .ok (mkLink 9 .remove 100 followBytes 10 [6]))
        ∧ merge 5 (storeWithIncorrectPadding (mkLink 9 .remove 100 followBytes 10 [6]))
              (mkLink 9 .add 100 followBytes 10 [7])
            = .error ⟨.badRequestConflict, "message conflicts with a more recent remove"⟩) :=
  ⟨by decide,
    linkStore_remove_beats_add_identical_ts
      (storeWithIncorrectPadding (mkLink 9 .add 100 followBytes 10 [7]))
      (storeWithIncorrectPadding (mkLink 9 .remove 100 followBytes 10 [6]))
      (mkLink 9 .add 100 followBytes 10 [7]) (mkLink 9 .remove 100 followBytes 10 [6]) 5
      (by decide) (by decide) (by decide) (by decide) (by decide) (by decide)
      (by decide) (by decide) (by decide) (by decide) (by decide)⟩

end Hubble.LinkStore

namespace Hubble.Engine

/-- Folding the store revoke over a list of cast messages removes exactly
those casts, appends them to the revoke log and touches nothing else. -/
theorem foldl_revoke_casts (L : List EngineMessage) (s0 : EngineState)
    (hL : ∀ m ∈ L, m.kind = .castAdd) :
    (L.foldl revokeEngineMessage s0).casts = s0.casts.filter (fun c => decide (c ∉ L))
      ∧ (L.foldl revokeEngineMessage s0).revoked = s0.revoked ++ L
      ∧ (L.foldl revokeEngineMessage s0).signerAdds = s0.signerAdds
      ∧ (L.foldl revokeEngineMessage s0).revokeQueue = s0.revokeQueue
      ∧ (L.foldl revokeEngineMessage s0).custody = s0.custody := by
  induction L generalizing s0 with
  | nil => simp
  | cons m rest ih =>
    have hm := hL m (by simp)
    have hrest : ∀ x ∈ rest, x.kind = .castAdd := fun x hx => hL x (by simp [hx])
    have hstep : revokeEngineMessage s0 m
        = { s0 with casts := s0.casts.filter (fun c => decide (c ≠ m)),
                    revoked := s0.revoked ++ [m] } := by
      simp [revokeEngineMessage, hm]
    obtain ⟨h1, h2, h3, h4, h5⟩ := ih (revokeEngineMessage s0 m) hrest
    rw [List.foldl_cons]
    refine ⟨?_, ?_, ?_, ?_, ?_⟩
    · rw [h1, hstep]
      simp only [List.filter_filter]
      apply List.filter_congr
      intro a _
      by_cases h1a : a = m <;> by_cases h2a : a ∈ rest <;> simp [h1a, h2a]
    · rw [h2, hstep]
      simp
    · rw [h3, hstep]
    · rw [h4, hstep]
    · rw [h5, hstep]

/-- Processing the two revoke jobs the transfer scenario queues: the job for
the outgoing custody revokes its SignerAdd, which enqueues the job for the
delegate key, which in turn revokes every cast of the delegate. -/
theorem runRevokeJobs_two (s1 : EngineState) (fid : Nat) (cOld sKey : List Nat)
    (a1 : EngineMessage)
    (hq : s1.revokeQueue = [(fid, cOld)])
    (hadds : s1.signerAdds = [((fid, sKey), a1)])
    (h1f : a1.fid = fid) (h1k : a1.kind = .signerAdd) (h1s : a1.signer = cOld)
    (h1b : a1.body = sKey)
    (hSC : sKey ≠ cOld)
    (hcasts : ∀ c ∈ s1.casts, c.kind = .castAdd ∧ c.fid = fid ∧ c.signer = sKey) :
    runRevokeJobs 2 s1
      = { custody := s1.custody, signerAdds := [], casts := [],
          revokeQueue := [], revoked := s1.revoked ++ a1 :: s1.casts } := by
  have hfilterOld : s1.casts.filter (fun c => decide (c.fid = fid ∧ c.signer = cOld)) = [] := by
    rw [List.filter_eq_nil]
    intro c hc
    simp [(hcasts c hc).2.2, hSC]
  have hL1 : messagesBySigner { s1 with revokeQueue := [] } fid cOld = [a1] := by
    simp [messagesBySigner, hadds, h1f, h1s, hfilterOld]
    intro a ha
    rw [(hcasts a ha).2.2]
    intro _
    exact hSC
  have hs2 : revokeMessagesBySigner { s1 with revokeQueue := [] } fid cOld
      = { custody := s1.custody, signerAdds := [], casts := s1.casts,
          revokeQueue := [(fid, sKey)], revoked := s1.revoked ++ [a1] } := by
    rw [revokeMessagesBySigner, hL1]
    simp [revokeEngineMessage, h1k, h1f, h1b, hadds, aerase_cons_self, aerase_nil]
  have hfilterKey : s1.casts.filter (fun c => decide (c.fid = fid ∧ c.signer = sKey))
      = s1.casts := by
    rw [List.filter_eq_self]
    intro c hc
    simp [(hcasts c hc).2.1, (hcasts c hc).2.2]
  have hL2 : messagesBySigner
      { custody := s1.custody, signerAdds := [], casts := s1.casts,
        revokeQueue := [], revoked := s1.revoked ++ [a1] } fid sKey = s1.casts := by
    simp [messagesBySigner, hfilterKey]
    exact fun a ha => ⟨(hcasts a ha).2.1, (hcasts a ha).2.2⟩
  have hcastsK : ∀ m ∈ s1.casts, m.kind = MessageKind.castAdd := fun m hm => (hcasts m hm).1
  have hs3 := foldl_revoke_casts s1.casts
    { custody := s1.custody, signerAdds := [], casts := s1.casts,
      revokeQueue := [], revoked := s1.revoked ++ [a1] } hcastsK
  have hfilterSelf : s1.casts.filter (fun c => decide (c ∉ s1.casts)) = [] := by
    rw [List.filter_eq_nil]
    intro c hc
    simp [hc]
  simp only [runRevokeJobs, hq, hs2]
  rw [revokeMessagesBySigner, hL2]
  obtain ⟨g1, g2, g3, g4, g5⟩ := hs3
  have hfold : (List.foldl revokeEngineMessage
        { custody := s1.custody, signerAdds := [], casts := s1.casts,
          revokeQueue := [], revoked := s1.revoked ++ [a1] } s1.casts)
      = { custody := s1.custody, signerAdds := [], casts := [],
          revokeQueue := [], revoked := s1.revoked ++ a1 :: s1.casts } := by
    apply EngineState.ext <;> simp_all [hfilterSelf]
  rw [hfold]

/-- C2 (amended): after the engine accepts an IdRegister Transfer moving the
custody of a fid from C to C2, it enqueues a RevokeMessagesBySigner job for
the outgoing custody address C; once the queued revoke jobs have run, the
SignerAdd issued under C and every cast signed by its delegate are revoked
and no cast of the fid remains queryable — provided the delegate was not
re-added under the new custody before the jobs ran (the counterexample shows
the messages survive in that case). -/
theorem engine_transfer_revocation (s : EngineState) (fid : Nat)
    (cOld cNew sKey : List Nat) (a1 : EngineMessage)
    (hq : s.revokeQueue = [])
    (hadds : s.signerAdds = [((fid, sKey), a1)])
    (h1f : a1.fid = fid) (h1k : a1.kind = .signerAdd) (h1s : a1.signer = cOld)
    (h1b : a1.body = sKey)
    (hSC : sKey ≠ cOld)
    (hcasts : ∀ c ∈ s.casts, c.kind = .castAdd ∧ c.fid = fid ∧ c.signer = sKey)
    (hOld : cOld ≠ []) :
    (mergeIdRegistryEvent s ⟨fid, cNew, cOld⟩).revokeQueue = [(fid, cOld)]
      ∧ (runRevokeJobs 2 (mergeIdRegistryEvent s ⟨fid, cNew, cOld⟩)).casts = []
      ∧ getCastsByFid (runRevokeJobs 2 (mergeIdRegistryEvent s ⟨fid, cNew, cOld⟩)) fid = []
      ∧ (runRevokeJobs 2 (mergeIdRegistryEvent s ⟨fid, cNew, cOld⟩)).signerAdds = []
      ∧ (runRevokeJobs 2 (mergeIdRegistryEvent s ⟨fid, cNew, cOld⟩)).revokeQueue = []
      ∧ (runRevokeJobs 2 (mergeIdRegistryEvent s ⟨fid, cNew, cOld⟩)).revoked
          = s.revoked ++ a1 :: s.casts := by
  have hs1 : mergeIdRegistryEvent s ⟨fid, cNew, cOld⟩
      = { custody := (fid, cNew) :: aerase fid s.custody, signerAdds := s.signerAdds,
          casts := s.casts, revokeQueue := [(fid, cOld)], revoked := s.revoked } := by
    simp [mergeIdRegistryEvent, mergeIdRegistryEventStore, handleMergeIdRegistryEvent,
      hOld, hq]
  have hrun := runRevokeJobs_two
    { custody := (fid, cNew) :: aerase fid s.custody, signerAdds := s.signerAdds,
      casts := s.casts, revokeQueue := [(fid, cOld)], revoked := s.revoked }
    fid cOld sKey a1 rfl hadds h1f h1k h1s h1b hSC hcasts
  rw [hs1, hrun]
  refine ⟨rfl, rfl, ?_, rfl, rfl, rfl⟩
  simp [getCastsByFid]

/-- C2 (witness): the concrete transfer scenario with no re-add under the new
custody: the job for custody A is enqueued and the cast of delegate S is
revoked. -/
theorem engine_transfer_revocation_witness :
    engineReadyState.revokeQueue = []
      ∧ ((mergeIdRegistryEvent engineReadyState transferAToB).revokeQueue = [(1, custodyA)]
        ∧ (runRevokeJobs 2 (mergeIdRegistryEvent engineReadyState transferAToB)).casts = []
        ∧ getCastsByFid (runRevokeJobs 2 (mergeIdRegistryEvent engineReadyState transferAToB)) 1
            = []
        ∧ (runRevokeJobs 2 (mergeIdRegistryEvent engineReadyState transferAToB)).signerAdds = []
        ∧ (runRevokeJobs 2 (mergeIdRegistryEvent engineReadyState transferAToB)).revokeQueue = []
        ∧ (runRevokeJobs 2 (mergeIdRegistryEvent engineReadyState transferAToB)).revoked
            = engineReadyState.revoked ++ signerAddByA :: engineReadyState.casts) :=
  ⟨by decide,
    engine_transfer_revocation engineReadyState 1 custodyA custodyB delegateS signerAddByA
      rfl rfl (by decide) (by decide) (by decide) (by decide) (by decide) (by decide)
      (by decide)⟩

/-- C2 (counterexample): fid 1 registers custody A, delegate S is added under
custody A and publishes a cast, then an IdRegister Transfer moves custody from
A to B (enqueueing the RevokeMessagesBySigner job for outgoing custody A), and
S is re-added under custody B before the job worker runs.  After every queued
revoke job has been processed the cast signed by S — a signer that was added
under custody A — is still queryable and nothing was revoked. -/
theorem engine_transfer_survivor_counterexample :
    (do
        let s1 := mergeIdRegistryEvent emptyEngine registerA
        let s2 ← mergeMessage s1 signerAddByA
        let s3 ← mergeMessage s2 castByS
        let s4 := mergeIdRegistryEvent s3 transferAToB
        let s5 ← mergeMessage s4 signerAddByB
        let s6 := runRevokeJobs 10 s5
        pure (s4.revokeQueue, getCastsByFid s6 1, s6.revokeQueue, s6.revoked) :
        Except HubError (List (Nat × List Nat) × List EngineMessage ×
          List (Nat × List Nat) × List EngineMessage))
      = .ok ([(1, custodyA)], [castByS], [], []) := by
  decide

end Hubble.Engine

namespace Hubble.Builder

/-- C9 (counterexample): the builder hash of a concrete message is the 16 byte
blake3 digest of its data bytes, not the 20 byte digest the claim states. -/
theorem builder_hash_not_20_bytes_counterexample :
    (makeMessage [1, 2, 3]).hash ≠ blake3 20 [1, 2, 3]
      ∧ (makeMessage [1, 2, 3]).hash.length = 16 := by
  decide

/-- C9 (amended): for every message the builder produces, the hash equals the
blake3 digest of the serialized message data bytes at dkLen 16 (a 16 byte
digest), and the stored hash scheme is Blake3. -/
theorem builder_hash_blake3_16 (d : List Nat) :
    (makeMessage d).hash = blake3 16 d
      ∧ (makeMessage d).hashScheme = .blake3Tag
      ∧ (makeMessage d).hash.length = 16 := by
  refine ⟨rfl, rfl, ?_⟩
  simp [makeMessage, blake3]

end Hubble.Builder

namespace Hubble.Limits

/-- C8: the default Links store size limit is a function of the current date:
2500 strictly before the calendar cutover 2024-08-22 and 2000 on or after
it. -/
theorem getDefaultStoreLimit_links_cutover (now1 now2 : Nat)
    (h1 : now1 < linksCutoverMs) (h2 : linksCutoverMs ≤ now2) :
    getDefaultStoreLimit .links now1 = 2500 ∧ getDefaultStoreLimit .links now2 = 2000 := by
  constructor
  · simp [getDefaultStoreLimit, h1]
  · simp [getDefaultStoreLimit, Nat.not_lt.mpr h2]

/-- C8 (witness): concrete dates on both sides of the cutover. -/
theorem getDefaultStoreLimit_links_cutover_witness :
    1700000000000 < linksCutoverMs ∧ linksCutoverMs ≤ 1724284800000
      ∧ getDefaultStoreLimit .links 1700000000000 = 2500
      ∧ getDefaultStoreLimit .links 1724284800000 = 2000 :=
  ⟨by decide, by decide,
    (getDefaultStoreLimit_links_cutover 1700000000000 1724284800000 (by decide) (by decide)).1,
    (getDefaultStoreLimit_links_cutover 1700000000000 1724284800000 (by decide) (by decide)).2⟩

end Hubble.Limits

